import Mathlib

/-
Verification of the pylogram client core against its specification.

Shallow embedding of the relevant parts of the source:
  * pylogram/dispatcher.py : handler groups, update dispatch, propagation
    control, middleware composition, the worker loop.
  * pylogram/client.py     : the Cache class, handle_updates (min-peer
    recovery), and the CDN branch of Client.get_file.

Python sets are modelled as lists carrying an arbitrary iteration order;
dicts that preserve insertion order (OrderedDict, plain dict) are modelled
as association lists.  Exceptions are modelled by explicit outcome values.
-/

namespace Pylogram.Dispatcher

/-- Result of a handler filter invocation (`await handler.check(...)` in
Dispatcher.handle_update): the check returns True, returns False, or raises
(in which case handle_update logs the error and moves to the next handler). -/
inductive CheckRes
  | ctrue
  | cfalse
  | raises
deriving DecidableEq, Repr

/-- Outcome of a handler callback (`await handler.callback(...)`): normal
return, raise StopPropagation, raise ContinuePropagation, or raise any
other exception (which handle_update logs). -/
inductive CbRes
  | ok
  | stopProp
  | contProp
  | err
deriving DecidableEq, Repr

/-- A registered handler, abstracted to the data that drives the control
flow of Dispatcher.handle_update: whether `isinstance(handler, handler_type)`
holds, whether `isinstance(handler, RawUpdateHandler)` holds (only consulted
in the elif branch, i.e. when the first test fails), what its check returns,
and what its callback does.  The id field distinguishes handlers. -/
structure Handler where
  id : Nat
  matchesType : Bool
  isRaw : Bool
  check : CheckRes
  callback : CbRes
deriving DecidableEq, Repr

/-- Whether handle_update ends up with `args is not None` for this handler:
for a type-matching handler the check must return True (a raising or false
check leaves args = None); otherwise the handler is used iff it is a
RawUpdateHandler. -/
def activates (h : Handler) : Bool :=
  if h.matchesType then h.check == CheckRes.ctrue else h.isRaw

/-- How the per-group for-loop of handle_update ends: `done` when the loop
runs off the end or executes `break`; `stopped` when a callback raised
StopPropagation, which handle_update re-raises. -/
inductive GOut
  | done
  | stopped
deriving DecidableEq, Repr

/-- The inner loop `for handler in group.copy()` of Dispatcher.handle_update,
on one group given in iteration order.  Returns how the loop ended together
with the list of handlers whose callback was invoked, in invocation order:
a non-activating handler is skipped (continue); an activating one has its
callback run, after which ContinuePropagation continues with the next
handler, StopPropagation aborts the whole dispatch, and a normal return or
any other exception (logged) reaches the `break`. -/
def runGroup : List Handler → GOut × List Handler
  | [] => (GOut.done, [])
  | h :: rest =>
    if activates h then
      match h.callback with
      | CbRes.stopProp => (GOut.stopped, [h])
      | CbRes.contProp =>
        let r := runGroup rest
        (r.1, h :: r.2)
      | CbRes.err => (GOut.done, [h])
      | CbRes.ok => (GOut.done, [h])
    else runGroup rest

/-- The outer loop `for group_id, group in self.groups.items()` of
Dispatcher.handle_update.  Input: the groups mapping as an ordered
association list (group id, handlers in set-iteration order).  Output: for
each group actually visited, its id and the handlers invoked in it, plus
True iff the dispatch was aborted by StopPropagation (which the source
re-raises to handler_worker). -/
def handle_update : List (Int × List Handler) → List (Int × List Handler) × Bool
  | [] => ([], false)
  | (g, hs) :: rest =>
    let r := runGroup hs
    match r.1 with
    | GOut.stopped => ([(g, r.2)], true)
    | GOut.done =>
      let t := handle_update rest
      ((g, r.2) :: t.1, t.2)

/-- What Dispatcher.handle_update raises to its caller: StopPropagation is
re-raised by the bare `raise`; nothing else escapes (other callback errors
are logged inside the loop). -/
inductive Propagated
  | nothing
  | stopPropagation
deriving DecidableEq, Repr

/-- The exception, if any, escaping handle_update for a given groups state. -/
def handle_update_raises (groups : List (Int × List Handler)) : Propagated :=
  if (handle_update groups).2 then Propagated.stopPropagation else Propagated.nothing

/-- The except clauses of Dispatcher.handler_worker around one packet:
`except StopPropagation: continue` and `except Exception as e:
log.exception(e)` both swallow the exception, so nothing propagates out of
the worker loop iteration. -/
def worker_catch : Propagated → Propagated
  | Propagated.stopPropagation => Propagated.nothing
  | Propagated.nothing => Propagated.nothing

/-- One handler_worker iteration dispatching one update: the trace of
handle_update together with what escapes to the worker loop after its
except clauses. -/
def worker_process (groups : List (Int × List Handler)) :
    List (Int × List Handler) × Propagated :=
  ((handle_update groups).1, worker_catch (handle_update_raises groups))

/-- Groups state: the OrderedDict `group_id -> set of handlers`, as an
ordered association list.  The list order is dict insertion order; the
handler list order is the (arbitrary) set iteration order. -/
abbrev GState := List (Int × List Handler)

/-- Python set add on the set model: append if not already present. -/
def set_add (hs : List Handler) (h : Handler) : List Handler :=
  if h ∈ hs then hs else hs ++ [h]

/-- Python set discard on the set model: remove the element if present. -/
def set_discard (hs : List Handler) (h : Handler) : List Handler :=
  hs.filter (fun x => x ≠ h)

/-- The `group in self.groups` key test of the OrderedDict model. -/
def hasKey (gs : GState) (g : Int) : Bool :=
  gs.any (fun e => e.1 = g)

/-- Apply f to the handler set stored under key g, leaving other entries
unchanged (in-place dict update: position of the entry is preserved). -/
def updateKey (gs : GState) (g : Int) (f : List Handler → List Handler) : GState :=
  gs.map (fun e => if e.1 = g then (e.1, f e.2) else e)

/-- Comparison used by `sorted(self.groups.items())`: by group id. -/
def keyLE : (Int × List Handler) → (Int × List Handler) → Prop :=
  fun a b => a.1 ≤ b.1

instance : DecidableRel keyLE :=
  fun a b => inferInstanceAs (Decidable (a.1 ≤ b.1))

instance : IsTotal (Int × List Handler) keyLE :=
  ⟨fun a b => Int.le_total a.1 b.1⟩

instance : IsTrans (Int × List Handler) keyLE :=
  ⟨fun _ _ _ h1 h2 => le_trans (α := Int) h1 h2⟩

/-- `self.groups = OrderedDict(sorted(self.groups.items()))`; Python sorted
is a stable sort, modelled by insertion sort. -/
def sortGroups (gs : GState) : GState :=
  List.insertionSort keyLE gs

/-- Dispatcher.add_handler: `self.groups.setdefault(group, set()).add(handler)`
(setdefault appends a fresh entry at the end when the key is new), then the
whole dict is rebuilt sorted by group id. -/
def add_handler (gs : GState) (h : Handler) (g : Int) : GState :=
  sortGroups
    (if hasKey gs g then updateKey gs g (fun hs => set_add hs h)
     else gs ++ [(g, set_add [] h)])

/-- Dispatcher.remove_handler: `self.groups.setdefault(group, set()).discard(handler)`
with no re-sort: a new key is appended at the end holding an empty set. -/
def remove_handler (gs : GState) (h : Handler) (g : Int) : GState :=
  if hasKey gs g then updateKey gs g (fun hs => set_discard hs h)
  else gs ++ [(g, [])]

/-- A registration operation on the dispatcher. -/
inductive DOp
  | add (h : Handler) (g : Int)
  | remove (h : Handler) (g : Int)
deriving DecidableEq, Repr

/-- Apply a sequence of add_handler / remove_handler calls. -/
def applyOps (gs : GState) : List DOp → GState
  | [] => gs
  | DOp.add h g :: rest => applyOps (add_handler gs h g) rest
  | DOp.remove h g :: rest => applyOps (remove_handler gs h g) rest

/-- Keys of the groups dict are pairwise distinct (a dict invariant). -/
def KeysNodup (gs : GState) : Prop :=
  (gs.map Prod.fst).Nodup

/-- Any two entries that both hold a non-empty handler set appear in
ascending group-id order.  (Entries appended by remove_handler for unknown
keys are empty, so they never violate this.) -/
def OrderedNonempty (gs : GState) : Prop :=
  gs.Pairwise (fun a b => a.2 ≠ [] → b.2 ≠ [] → a.1 < b.1)

/-- The dispatcher groups invariant maintained by registration. -/
def GroupsWF (gs : GState) : Prop :=
  KeysNodup gs ∧ OrderedNonempty gs

/-- A type-matching handler whose check passes and whose callback returns
normally (for concrete runs). -/
def hOkW : Handler := ⟨0, true, false, CheckRes.ctrue, CbRes.ok⟩

/-- A type-matching handler whose check returns False (for concrete runs). -/
def hSkipW : Handler := ⟨1, true, false, CheckRes.cfalse, CbRes.ok⟩

/-- A second passing handler, placed after the break point or in a later
group (for concrete runs). -/
def hPostW : Handler := ⟨2, true, false, CheckRes.ctrue, CbRes.ok⟩

/-- A passing handler raising StopPropagation (for concrete runs). -/
def hStopW : Handler := ⟨3, true, false, CheckRes.ctrue, CbRes.stopProp⟩

/-- A passing handler raising ContinuePropagation (for concrete runs). -/
def hContW : Handler := ⟨4, true, false, CheckRes.ctrue, CbRes.contProp⟩

/-- A passing handler whose callback raises a generic error (for concrete
runs). -/
def hErrW : Handler := ⟨5, true, false, CheckRes.ctrue, CbRes.err⟩

/-- A concrete registration sequence: a handler in group 1 added before a
handler in group 0. -/
def opsW : List DOp := [DOp.add hOkW 1, DOp.add hPostW 0]

end Pylogram.Dispatcher

namespace Pylogram.Cache

/-- The Cache class of pylogram/client.py: a capacity plus a plain dict used
as an insertion-ordered mapping, modelled as an association list with
pairwise-distinct keys, oldest insertion first. -/
structure Cache (K V : Type) where
  capacity : Nat
  store : List (K × V)
deriving Repr

/-- `Cache(capacity)`: the store starts empty. -/
def mkCache (K V : Type) (capacity : Nat) : Cache K V :=
  ⟨capacity, []⟩

/-- `__getitem__`: `self.store.get(key, None)`. -/
def getItem {K V : Type} [DecidableEq K] (c : Cache K V) (k : K) : Option V :=
  (c.store.find? (fun p => p.1 = k)).map Prod.snd

/-- `__setitem__`: delete the key if present, insert the pair at the end,
then, if the store exceeds capacity, pop `capacity // 2 + 1` entries from
the front (Python `next(iter(self.store))` yields the oldest key). -/
def setItem {K V : Type} [DecidableEq K] (c : Cache K V) (k : K) (v : V) : Cache K V :=
  let s1 := c.store.filter (fun p => p.1 ≠ k)
  let s2 := s1 ++ [(k, v)]
  if s2.length > c.capacity then
    { c with store := s2.drop (c.capacity / 2 + 1) }
  else
    { c with store := s2 }

/-- Run a sequence of `cache[key] = value` assignments on a fresh cache. -/
def runSets {K V : Type} [DecidableEq K] (capacity : Nat) (ops : List (K × V)) : Cache K V :=
  ops.foldl (fun st p => setItem st p.1 p.2) (mkCache K V capacity)

end Pylogram.Cache

namespace Pylogram.Middleware

/-- A middleware as registered on the dispatcher: an async callable invoked
as `m(client, parsed_update, call_next=...)`, where call_next is itself
invoked with (client, parsed_update).  C is the client type, U the parsed
update type, R the result type. -/
def Mw (C U R : Type) : Type :=
  C → U → (C → U → R) → R

/-- Dispatcher.__prepare_middlewares: `yield from reversed(self.middlewares)`. -/
def prepare_middlewares {C U R : Type} (ms : List (Mw C U R)) : List (Mw C U R) :=
  ms.reverse

/-- The wrapping loop of Dispatcher.handle_update_with_middlewares:
starting from the innermost fn (which performs the plain handle_update
dispatch, here the argument base), each middleware of the prepared
(reversed) sequence wraps the current call_next; finally the outermost
call_next is invoked with (client, parsed_update). -/
def handle_update_with_middlewares {C U R : Type}
    (ms : List (Mw C U R)) (base : C → U → R) (c : C) (u : U) : R :=
  ((prepare_middlewares ms).foldl
    (fun call_next m => fun cl up => m cl up call_next) base) c u

/-- Specification-side composition, following the words of the spec: the
middlewares applied in registration order, first registered outermost, the
most recently added innermost, around the base dispatch. -/
def chainSpec {C U R : Type} (ms : List (Mw C U R)) (base : C → U → R) : C → U → R :=
  match ms with
  | [] => base
  | m :: rest => fun c u => m c u (chainSpec rest base)

/-- `self.__run_middlewares = True if self.middlewares else False` as set by
Dispatcher.start. -/
def run_middlewares {C U R : Type} (ms : List (Mw C U R)) : Bool :=
  !ms.isEmpty

/-- The dispatch choice made by Dispatcher.handler_worker for one packet:
`if bool(parsed_update) and self.__run_middlewares:` take the middleware
path, else call handle_update directly.  Parsed updates are objects (or
None), so bool(parsed_update) is modelled as presence; baseNone is the
result of the direct handle_update call for an unparsed update. -/
def worker_dispatch {C U R : Type} (ms : List (Mw C U R)) (base : C → U → R)
    (baseNone : R) (c : C) (parsed : Option U) : R :=
  match parsed with
  | some u =>
    if run_middlewares ms then handle_update_with_middlewares ms base c u
    else base c u
  | none => baseNone

end Pylogram.Middleware

namespace Pylogram.Updates

/-- A raw user or chat object as seen by Client.update_storage_peers.  Only
the data driving the modelled control flow is kept: the id and the `min`
flag read by `getattr(peer, "min", False)`.  (The peer-record parsing and
the storage write that follow are independent of the returned is_min flag
and of what is enqueued, and are omitted.) -/
structure Peer where
  id : Int
  min : Bool
deriving DecidableEq, Repr

/-- The is_min result of Client.update_storage_peers: True iff some peer in
the list carries the min flag. -/
def update_storage_peers_min (peers : List Peer) : Bool :=
  peers.any (fun p => p.min)

/-- A raw message inside UpdateNewChannelMessage, reduced to the fields the
handle_updates control flow reads: its id, whether it is a
raw.types.MessageEmpty, and the channel id reached through
message.peer_id.channel_id (channel messages carry a PeerChannel). -/
structure RawMsg where
  id : Int
  isEmpty : Bool
  channel_id : Int
deriving DecidableEq, Repr

/-- A raw update inside an Updates / UpdatesCombined batch.  Updates other
than UpdateNewChannelMessage take the plain enqueue path of the loop and
are collapsed into `other`. -/
inductive RawUpdate
  | newChannelMessage (message : RawMsg) (pts : Int) (pts_count : Int)
  | other (tag : Nat)
deriving DecidableEq, Repr

/-- Modelled from the spec: `utils.get_channel_id` (pylogram/utils.py is not
part of the sources provided) maps a bare positive channel id to the
peer-record channel id form used by the peer store and by the
ignore_channel_updates_except list, by offsetting below the channel id
marker constant. -/
def MAX_CHANNEL_ID : Int := -1000000000000

/-- Modelled from the spec: the bare-to-peer channel id translation used by
handle_updates both for the allow-list membership test and for the
resolve_peer argument. -/
def get_channel_id (i : Int) : Int :=
  MAX_CHANNEL_ID - i

/-- Observable effects of the per-update body of Client.handle_updates, in
program order: an updates.GetChannelDifference invocation (with the channel
peer id handed to resolve_peer, the pts and the limit arguments), and the
enqueueing of a raw update on dispatcher.updates_queue.  The users/chats
dicts that accompany each enqueued update (and that a non-empty
ChannelDifference extends) are shared mutable objects and are not part of
the event. -/
inductive UEv
  | gcdCall (channel : Int) (pts : Int) (limit : Int)
  | enqueue (u : RawUpdate)
deriving DecidableEq, Repr

/-- The body of `for update in updates.updates` in Client.handle_updates for
one update, given the allow-list `self.ignore_channel_updates_except`
(None is modelled as the empty list, matching its falsiness) and the is_min
flag of the batch.  For an UpdateNewChannelMessage under is_min: a
non-empty allow-list not containing the channel makes the loop `continue`,
dropping the update; otherwise a non-MessageEmpty message triggers
GetChannelDifference (whose result only extends the shared users/chats
dicts; a ChannelPrivate error is passed over) and the update is enqueued.
Every other update is enqueued directly. -/
def process_update (allow : List Int) (is_min : Bool) (u : RawUpdate) : List UEv :=
  match u with
  | RawUpdate.newChannelMessage msg pts ptsCount =>
    if is_min then
      if !allow.isEmpty && !(allow.contains (get_channel_id msg.channel_id)) then
        []
      else if !msg.isEmpty then
        [UEv.gcdCall (get_channel_id msg.channel_id) (pts - ptsCount) pts,
         UEv.enqueue u]
      else
        [UEv.enqueue u]
    else
      [UEv.enqueue u]
  | RawUpdate.other _ => [UEv.enqueue u]

/-- Client.handle_updates on a raw.types.Updates batch: is_min is computed
by running update_storage_peers over the users and over the chats of the
batch, then every update flows through the per-update body. -/
def handle_updates_batch (allow : List Int) (users chats : List Peer)
    (ups : List RawUpdate) : List UEv :=
  let is_min := update_storage_peers_min users || update_storage_peers_min chats
  ups.flatMap (process_update allow is_min)

end Pylogram.Updates

namespace Pylogram.GetFile

/-- Byte strings as lists of byte values. -/
abbrev Bytes := List Nat

/-- Python slice l[a:b] for 0 ≤ a ≤ b. -/
def pySlice (l : Bytes) (a b : Nat) : Bytes :=
  (l.take b).drop a

/-- Python `(v).to_bytes(4, "big")` for v < 2^32 (the only case in which
the source call returns; larger values raise OverflowError in Python and do
not occur for in-range file offsets). -/
def toBytes4BE (v : Nat) : Bytes :=
  [v / 16777216 % 256, v / 65536 % 256, v / 256 % 256, v % 256]

/-- Big-endian byte-list to number, to state what `toBytes4BE` encodes. -/
def fromBytesBE (bs : Bytes) : Nat :=
  bs.foldl (fun acc b => acc * 256 + b) 0

/-- The per-chunk CTR initialization vector built by Client.get_file for a
CDN chunk: `r.encryption_iv[:-4] + (offset_bytes // 16).to_bytes(4, "big")`
(the slice keeps all but the last 4 bytes). -/
def cdn_iv (iv : Bytes) (offset : Nat) : Bytes :=
  iv.take (iv.length - 4) ++ toBytes4BE (offset / 16)

/-- One entry of the upload.getCdnFileHashes result: the source reads the
limit and hash fields. -/
structure FileHash where
  limit : Nat
  hash : Bytes
deriving DecidableEq, Repr

/-- Result of an upload.getCdnFile invocation on the CDN session. -/
inductive CdnFileResult
  | file (bytes : Bytes)
  | reuploadNeeded (request_token : Bytes)

/-- Result of the upload.reuploadCdnFile invocation on the origin session:
normal return, or the VolumeLocNotFound error which the source catches and
turns into `break`. -/
inductive ReuploadResult
  | ok
  | volumeLocNotFound

/-- Exceptions relevant to the CDN download path.  Modelled from the spec
(the pylogram errors package is not part of the sources provided):
CDNFileHashMismatch is an RPC-error class raised by the failed security
check, StopTransmission is the distinct control-signal class; neither is a
subclass of the other. -/
inductive PyErr
  | cdnFileHashMismatch
  | stopTransmission
deriving DecidableEq, Repr

/-- Environment: the responses of the remote ends and the cryptographic
primitives, supplied as functions.  getCdnFile is indexed by the running
count of getCdnFile invocations (so a retry of the same offset can be
answered differently) and by the offset; reupload by the running count of
reuploadCdnFile invocations; getHashes by the offset.  decrypt models
aes.ctr256_decrypt (chunk, key, iv) and sha256Fn the SHA-256 digest, both
from the crypto package which is outside the provided sources.
progressStop cur is true when the caller-supplied progress callback raises
StopTransmission after the cur-th chunk was yielded. -/
structure CdnEnv where
  getCdnFile : Nat → Nat → CdnFileResult
  reupload : Nat → ReuploadResult
  getHashes : Nat → List FileHash
  decrypt : Bytes → Bytes → Bytes → Bytes
  sha256Fn : Bytes → Bytes
  progressStop : Nat → Bool

/-- The parameters of the upload.fileCdnRedirect response used by the loop. -/
structure CdnRedirect where
  encryption_key : Bytes
  encryption_iv : Bytes

/-- The chunk size fixed by Client.get_file. -/
def CHUNK_SIZE : Nat := 1024 * 1024

/-- Which session an RPC goes out on: `session` (origin DC) or
`cdn_session`. -/
inductive Sess
  | origin
  | cdn
deriving DecidableEq, Repr

/-- Observable events of the CDN while-loop, in program order. -/
inductive Ev
  | rpcGetCdnFile (s : Sess) (n : Nat) (offset : Nat)
  | rpcReuploadCdnFile (s : Sess) (request_token : Bytes)
  | rpcGetCdnFileHashes (s : Sess) (offset : Nat)
  | decryptChunk (offset : Nat) (chunk : Bytes) (key : Bytes) (iv : Bytes)
  | yieldChunk (chunk : Bytes)
deriving DecidableEq, Repr

/-- How the CDN while-loop ends: a break (normal completion, including the
VolumeLocNotFound break), an exception propagating out of the loop, or
exhaustion of the step budget (a model artifact standing for a still
running loop). -/
inductive LoopExit
  | finished
  | raised (e : PyErr)
  | fuelOut
deriving DecidableEq, Repr

/-- The hash verification loop `for i, h in enumerate(hashes)` over a
decrypted chunk: slice `decrypted_chunk[h.limit * i : h.limit * (i + 1)]`,
compare its digest against h.hash, and raise CDNFileHashMismatch at the
first difference (false = raised). -/
def verifyHashes (env : CdnEnv) (decrypted : Bytes) : Nat → List FileHash → Bool
  | _, [] => true
  | i, h :: rest =>
    if h.hash == env.sha256Fn (pySlice decrypted (h.limit * i) (h.limit * (i + 1))) then
      verifyHashes env decrypted (i + 1) rest
    else
      false

/-- The CDN while-loop of Client.get_file (the upload.FileCdnRedirect
branch), with explicit state: remaining step budget, the `current` chunk
counter, `offset_bytes`, and the running counts of getCdnFile and
reuploadCdnFile invocations used to index the environment.  Returns the
event trace and how the loop ended.  A reuploadNeeded response triggers
reuploadCdnFile on the origin session and, unless that raises
VolumeLocNotFound (break), a retry with unchanged offset; a file response
is decrypted with AES-CTR under the per-offset IV, verified against the
origin hashes (mismatch raises CDNFileHashMismatch), yielded, and the loop
continues until a short chunk or the chunk budget `total` is reached. -/
def cdn_loop (env : CdnEnv) (r : CdnRedirect) (total : Nat) :
    Nat → Nat → Nat → Nat → Nat → List Ev × LoopExit
  | 0, _, _, _, _ => ([], LoopExit.fuelOut)
  | fuel + 1, current, offset, n, m =>
    let ev0 := Ev.rpcGetCdnFile Sess.cdn n offset
    match env.getCdnFile n offset with
    | CdnFileResult.reuploadNeeded tok =>
      match env.reupload m with
      | ReuploadResult.volumeLocNotFound =>
        ([ev0, Ev.rpcReuploadCdnFile Sess.origin tok], LoopExit.finished)
      | ReuploadResult.ok =>
        let rest := cdn_loop env r total fuel current offset (n + 1) (m + 1)
        (ev0 :: Ev.rpcReuploadCdnFile Sess.origin tok :: rest.1, rest.2)
    | CdnFileResult.file chunk =>
      let iv := cdn_iv r.encryption_iv offset
      let decrypted := env.decrypt chunk r.encryption_key iv
      let evD := Ev.decryptChunk offset chunk r.encryption_key iv
      let evH := Ev.rpcGetCdnFileHashes Sess.origin offset
      if verifyHashes env decrypted 0 (env.getHashes offset) then
        let evY := Ev.yieldChunk decrypted
        if env.progressStop (current + 1) then
          ([ev0, evD, evH, evY], LoopExit.raised PyErr.stopTransmission)
        else if chunk.length < CHUNK_SIZE ∨ current + 1 ≥ total then
          ([ev0, evD, evH, evY], LoopExit.finished)
        else
          let rest := cdn_loop env r total fuel (current + 1) (offset + CHUNK_SIZE) (n + 1) m
          (ev0 :: evD :: evH :: evY :: rest.1, rest.2)
      else
        ([ev0, evD, evH], LoopExit.raised PyErr.cdnFileHashMismatch)

/-- The chunks the generator hands to its consumer, read off the trace. -/
def yieldedChunks (evs : List Ev) : List Bytes :=
  evs.filterMap (fun e =>
    match e with
    | Ev.yieldChunk c => some c
    | _ => none)

/-- What the caller of get_file observes: the generator either completes
(normally, or after an exception was logged and swallowed) or re-raises an
exception. -/
inductive GetFileOutcome
  | completed
  | raised (e : PyErr)
deriving DecidableEq, Repr

/-- The outer try of Client.get_file around the download: `except
StopTransmission: raise` re-raises only that class, and `except Exception
as e: log.exception(e)` swallows everything else, after which the generator
simply ends.  (The inner `except Exception as e: raise e` around the CDN
loop re-raises unchanged and only funds the cdn_session.stop() cleanup.) -/
def get_file_cdn (env : CdnEnv) (r : CdnRedirect) (total fuel current offset n m : Nat) :
    List Bytes × GetFileOutcome :=
  let res := cdn_loop env r total fuel current offset n m
  (yieldedChunks res.1,
    match res.2 with
    | LoopExit.raised PyErr.stopTransmission => GetFileOutcome.raised PyErr.stopTransmission
    | _ => GetFileOutcome.completed)

/-- Concrete environment for the hash-mismatch run: the single fetched
chunk [1] decrypts to itself, the origin supplies the hash [99] for the
first 1-byte slice, but the digest of [1] is [0]. -/
def envHashCex : CdnEnv where
  getCdnFile := fun _ _ => CdnFileResult.file [1]
  reupload := fun _ => ReuploadResult.ok
  getHashes := fun _ => [⟨1, [99]⟩]
  decrypt := fun c _ _ => c
  sha256Fn := fun _ => [0]
  progressStop := fun _ => false

/-- Concrete environment for the reupload run: the first getCdnFile answers
reuploadNeeded with token [9], and the origin reupload fails with
VolumeLocNotFound. -/
def envReupCex : CdnEnv where
  getCdnFile := fun n _ => if n = 0 then CdnFileResult.reuploadNeeded [9] else CdnFileResult.file [1]
  reupload := fun _ => ReuploadResult.volumeLocNotFound
  getHashes := fun _ => []
  decrypt := fun c _ _ => c
  sha256Fn := fun _ => []
  progressStop := fun _ => false

/-- Concrete environment like envReupCex but with a succeeding reupload, so
the loop retries the fetch at the unchanged offset. -/
def envReupOk : CdnEnv where
  getCdnFile := fun n _ => if n = 0 then CdnFileResult.reuploadNeeded [9] else CdnFileResult.file [1]
  reupload := fun _ => ReuploadResult.ok
  getHashes := fun _ => []
  decrypt := fun c _ _ => c
  sha256Fn := fun _ => []
  progressStop := fun _ => false

/-- A 16-byte redirect key/IV pair for concrete runs. -/
def rCex : CdnRedirect where
  encryption_key := [7, 7, 7, 7, 7, 7, 7, 7, 7, 7, 7, 7, 7, 7, 7, 7]
  encryption_iv := [0, 1, 2, 3, 4, 5, 6, 7, 8, 9, 10, 11, 12, 13, 14, 15]

end Pylogram.GetFile

namespace Pylogram.Dispatcher

theorem runGroup_contPre (pre l : List Handler)
    (hpre : ∀ x ∈ pre, activates x = true → x.callback = CbRes.contProp) :
    runGroup (pre ++ l) = ((runGroup l).1, pre.filter activates ++ (runGroup l).2) := by
  induction pre with
  | nil => simp [List.filter]
  | cons x xs ih =>
    have hxs : ∀ a ∈ xs, activates a = true → a.callback = CbRes.contProp :=
      fun a ha => hpre a (List.mem_cons_of_mem x ha)
    by_cases hx : activates x = true
    · have hcb := hpre x (List.mem_cons_self x xs) hx
      simp [runGroup, hx, hcb, List.filter_cons, ih hxs]
    · simp [runGroup, hx, List.filter_cons, ih hxs]

theorem runGroup_headOk (h : Handler) (post : List Handler)
    (hact : activates h = true) (hok : h.callback = CbRes.ok) :
    runGroup (h :: post) = (GOut.done, [h]) := by
  simp [runGroup, hact, hok]

theorem runGroup_headErr (h : Handler) (post : List Handler)
    (hact : activates h = true) (herr : h.callback = CbRes.err) :
    runGroup (h :: post) = (GOut.done, [h]) := by
  simp [runGroup, hact, herr]

theorem runGroup_headStop (h : Handler) (post : List Handler)
    (hact : activates h = true) (hstop : h.callback = CbRes.stopProp) :
    runGroup (h :: post) = (GOut.stopped, [h]) := by
  simp [runGroup, hact, hstop]

theorem handle_update_doneAppend (p rest : List (Int × List Handler))
    (hp : ∀ e ∈ p, (runGroup e.2).1 = GOut.done) :
    handle_update (p ++ rest) =
      (p.map (fun e => (e.1, (runGroup e.2).2)) ++ (handle_update rest).1,
       (handle_update rest).2) := by
  induction p with
  | nil => simp
  | cons e es ih =>
    obtain ⟨g, hs⟩ := e
    have h1 := hp (g, hs) (List.mem_cons_self _ _)
    have hes : ∀ x ∈ es, (runGroup x.2).1 = GOut.done :=
      fun x hx => hp x (List.mem_cons_of_mem _ hx)
    simp only [List.cons_append, handle_update, List.map_cons]
    rw [h1]
    simp [ih hes]

end Pylogram.Dispatcher

namespace Pylogram.Dispatcher

theorem worker_process_snd (G : List (Int × List Handler)) :
    (worker_process G).2 = Propagated.nothing := by
  unfold worker_process
  cases handle_update_raises G <;> rfl

/-- C1: for every dispatched update, once a handler of a group matches (its
check returns true, or it is a RawUpdateHandler) and its callback returns
without raising, no further handler of that group is invoked (the visited
trace of the group is the ContinuePropagation prefix followed by that
handler, with no dependence on the rest of the group), and dispatch then
proceeds to every later group. -/
theorem match_ok_stops_group_and_visits_later_groups
    (p rest : List (Int × List Handler)) (gid : Int)
    (pre post : List Handler) (h : Handler)
    (hp : ∀ e ∈ p, (runGroup e.2).1 = GOut.done)
    (hpre : ∀ x ∈ pre, activates x = true → x.callback = CbRes.contProp)
    (hact : activates h = true) (hok : h.callback = CbRes.ok) :
    handle_update (p ++ (gid, pre ++ h :: post) :: rest) =
      (p.map (fun e => (e.1, (runGroup e.2).2)) ++
        (gid, pre.filter activates ++ [h]) :: (handle_update rest).1,
       (handle_update rest).2) := by
  have hg : runGroup (pre ++ h :: post) = (GOut.done, pre.filter activates ++ [h]) := by
    rw [runGroup_contPre pre (h :: post) hpre, runGroup_headOk h post hact hok]
  rw [handle_update_doneAppend p _ hp]
  simp [handle_update, hg]

theorem match_ok_stops_group_and_visits_later_groups_witness :
    (∀ e ∈ [((0 : Int), ([] : List Handler))], (runGroup e.2).1 = GOut.done) ∧
    (∀ x ∈ [hSkipW], activates x = true → x.callback = CbRes.contProp) ∧
    activates hOkW = true ∧ hOkW.callback = CbRes.ok ∧
    handle_update
        ([((0 : Int), ([] : List Handler))] ++
          (1, [hSkipW] ++ hOkW :: [hPostW]) :: [(2, [hPostW])]) =
      ([((0 : Int), ([] : List Handler))].map (fun e => (e.1, (runGroup e.2).2)) ++
        (1, [hSkipW].filter activates ++ [hOkW]) :: (handle_update [(2, [hPostW])]).1,
       (handle_update [(2, [hPostW])]).2) :=
  ⟨by decide, by decide, by decide, by decide,
   match_ok_stops_group_and_visits_later_groups
     [((0 : Int), [])] [(2, [hPostW])] 1 [hSkipW] [hPostW] hOkW
     (by decide) (by decide) (by decide) (by decide)⟩

/-- C4: a StopPropagation raised by a matched callback terminates dispatch
(the group trace ends at that handler and no later group appears), the
exception escapes handle_update but is absorbed by the worker loop and
never surfaces; a ContinuePropagation continues the iteration within the
same group with the handlers that follow. -/
theorem stop_and_continue_propagation :
    (∀ (p rest : List (Int × List Handler)) (gid : Int) (pre post : List Handler) (h : Handler),
      (∀ e ∈ p, (runGroup e.2).1 = GOut.done) →
      (∀ x ∈ pre, activates x = true → x.callback = CbRes.contProp) →
      activates h = true → h.callback = CbRes.stopProp →
        handle_update (p ++ (gid, pre ++ h :: post) :: rest) =
          (p.map (fun e => (e.1, (runGroup e.2).2)) ++
            [(gid, pre.filter activates ++ [h])], true) ∧
        handle_update_raises (p ++ (gid, pre ++ h :: post) :: rest) =
          Propagated.stopPropagation ∧
        (worker_process (p ++ (gid, pre ++ h :: post) :: rest)).2 = Propagated.nothing) ∧
    (∀ (pre post : List Handler) (h : Handler),
      (∀ x ∈ pre, activates x = true → x.callback = CbRes.contProp) →
      activates h = true → h.callback = CbRes.contProp →
        runGroup (pre ++ h :: post) =
          ((runGroup post).1, pre.filter activates ++ h :: (runGroup post).2)) := by
  constructor
  · intro p rest gid pre post h hp hpre hact hstop
    have hg : runGroup (pre ++ h :: post) = (GOut.stopped, pre.filter activates ++ [h]) := by
      rw [runGroup_contPre pre (h :: post) hpre, runGroup_headStop h post hact hstop]
    have hval : handle_update (p ++ (gid, pre ++ h :: post) :: rest) =
        (p.map (fun e => (e.1, (runGroup e.2).2)) ++
          [(gid, pre.filter activates ++ [h])], true) := by
      rw [handle_update_doneAppend p _ hp]
      simp [handle_update, hg]
    refine ⟨hval, ?_, worker_process_snd _⟩
    unfold handle_update_raises
    rw [hval]
    rfl
  · intro pre post h hpre hact hcont
    have hpre2 : ∀ x ∈ pre ++ [h], activates x = true → x.callback = CbRes.contProp := by
      intro x hx hax
      rcases List.mem_append.mp hx with hx1 | hx2
      · exact hpre x hx1 hax
      · rcases List.mem_singleton.mp hx2 with rfl
        exact hcont
    have := runGroup_contPre (pre ++ [h]) post hpre2
    rw [List.append_assoc] at this
    simp only [List.singleton_append] at this
    rw [this, List.filter_append]
    simp [hact]

theorem stop_and_continue_propagation_witness :
    ((∀ e ∈ ([] : List (Int × List Handler)), (runGroup e.2).1 = GOut.done) ∧
      activates hStopW = true ∧ hStopW.callback = CbRes.stopProp ∧
      handle_update ([] ++ ((0 : Int), [] ++ hStopW :: [hPostW]) :: [(1, [hPostW])]) =
        (([] : List (Int × List Handler)).map (fun e => (e.1, (runGroup e.2).2)) ++
          [((0 : Int), List.filter activates [] ++ [hStopW])], true) ∧
      (worker_process ([] ++ ((0 : Int), [] ++ hStopW :: [hPostW]) :: [(1, [hPostW])])).2 =
        Propagated.nothing) ∧
    (activates hContW = true ∧ hContW.callback = CbRes.contProp ∧
      runGroup ([] ++ hContW :: [hPostW]) =
        ((runGroup [hPostW]).1, List.filter activates [] ++ hContW :: (runGroup [hPostW]).2)) :=
  ⟨⟨by decide, by decide, by decide,
    (stop_and_continue_propagation.1 [] [(1, [hPostW])] 0 [] [hPostW] hStopW
      (by decide) (by decide) (by decide) (by decide)).1,
    (stop_and_continue_propagation.1 [] [(1, [hPostW])] 0 [] [hPostW] hStopW
      (by decide) (by decide) (by decide) (by decide)).2.2⟩,
   by decide, by decide,
   stop_and_continue_propagation.2 [] [hPostW] hContW (by decide) (by decide) (by decide)⟩

/-- C10: a matched callback raising any other exception is only logged: the
group trace ends at that handler exactly as for a normal return, dispatch
proceeds to every later group, and nothing escapes the worker loop. -/
theorem callback_error_swallowed_like_normal_return
    (p rest : List (Int × List Handler)) (gid : Int)
    (pre post : List Handler) (h : Handler)
    (hp : ∀ e ∈ p, (runGroup e.2).1 = GOut.done)
    (hpre : ∀ x ∈ pre, activates x = true → x.callback = CbRes.contProp)
    (hact : activates h = true) (herr : h.callback = CbRes.err) :
    handle_update (p ++ (gid, pre ++ h :: post) :: rest) =
      (p.map (fun e => (e.1, (runGroup e.2).2)) ++
        (gid, pre.filter activates ++ [h]) :: (handle_update rest).1,
       (handle_update rest).2) ∧
    (worker_process (p ++ (gid, pre ++ h :: post) :: rest)).2 = Propagated.nothing := by
  have hg : runGroup (pre ++ h :: post) = (GOut.done, pre.filter activates ++ [h]) := by
    rw [runGroup_contPre pre (h :: post) hpre, runGroup_headErr h post hact herr]
  constructor
  · rw [handle_update_doneAppend p _ hp]
    simp [handle_update, hg]
  · exact worker_process_snd _

theorem callback_error_swallowed_like_normal_return_witness :
    (∀ e ∈ ([] : List (Int × List Handler)), (runGroup e.2).1 = GOut.done) ∧
    activates hErrW = true ∧ hErrW.callback = CbRes.err ∧
    (handle_update ([] ++ ((0 : Int), [] ++ hErrW :: [hPostW]) :: [(1, [hPostW])]) =
      (([] : List (Int × List Handler)).map (fun e => (e.1, (runGroup e.2).2)) ++
        ((0 : Int), List.filter activates [] ++ [hErrW]) :: (handle_update [(1, [hPostW])]).1,
       (handle_update [(1, [hPostW])]).2) ∧
     (worker_process ([] ++ ((0 : Int), [] ++ hErrW :: [hPostW]) :: [(1, [hPostW])])).2 =
       Propagated.nothing) :=
  ⟨by decide, by decide, by decide,
   callback_error_swallowed_like_normal_return [] [(1, [hPostW])] 0 [] [hPostW] hErrW
     (by decide) (by decide) (by decide) (by decide)⟩

end Pylogram.Dispatcher

namespace Pylogram.Dispatcher

theorem updateKey_map_fst (gs : GState) (g : Int) (f : List Handler → List Handler) :
    (updateKey gs g f).map Prod.fst = gs.map Prod.fst := by
  unfold updateKey
  rw [List.map_map]
  apply List.map_congr_left
  intro e _
  by_cases h : e.1 = g <;> simp [h]

theorem not_mem_keys_of_hasKey_false (gs : GState) (g : Int)
    (h : hasKey gs g = false) : g ∉ gs.map Prod.fst := by
  intro hmem
  rw [List.mem_map] at hmem
  obtain ⟨e, he, heq⟩ := hmem
  have : gs.any (fun e => e.1 = g) = true :=
    List.any_eq_true.mpr ⟨e, he, by simp [heq]⟩
  rw [show gs.any (fun e => e.1 = g) = hasKey gs g from rfl, h] at this
  cases this

theorem keysNodup_sortGroups (gs : GState) (h : KeysNodup gs) :
    KeysNodup (sortGroups gs) :=
  (((List.perm_insertionSort keyLE gs).map Prod.fst).nodup_iff).mpr h

theorem orderedNonempty_of_sorted_nodup (gs : GState)
    (hs : List.Sorted keyLE gs) (hn : KeysNodup gs) : OrderedNonempty gs := by
  have hne : gs.Pairwise (fun a b => a.1 ≠ b.1) := by
    have hn2 : (gs.map Prod.fst).Pairwise (· ≠ ·) := hn
    rw [List.pairwise_map] at hn2
    exact hn2
  have hand := List.Pairwise.and hs hne
  exact hand.imp (fun hab _ _ => lt_of_le_of_ne hab.1 hab.2)

theorem groupsWF_add (gs : GState) (h : Handler) (g : Int) (hwf : GroupsWF gs) :
    GroupsWF (add_handler gs h g) := by
  obtain ⟨hn, _⟩ := hwf
  have hn2 : KeysNodup
      (if hasKey gs g then updateKey gs g (fun hs => set_add hs h)
       else gs ++ [(g, set_add [] h)]) := by
    by_cases hk : hasKey gs g = true
    · simp only [hk, if_true]
      show ((updateKey gs g _).map Prod.fst).Nodup
      rw [updateKey_map_fst]
      exact hn
    · rw [Bool.not_eq_true] at hk
      simp only [hk, Bool.false_eq_true, if_false]
      show ((gs ++ [(g, set_add [] h)]).map Prod.fst).Nodup
      rw [List.map_append]
      rw [List.nodup_append]
      refine ⟨hn, List.nodup_singleton _, ?_⟩
      intro a ha hb
      simp only [List.map_cons, List.map_nil, List.mem_singleton] at hb
      subst hb
      exact not_mem_keys_of_hasKey_false gs a hk ha
  exact ⟨keysNodup_sortGroups _ hn2,
    orderedNonempty_of_sorted_nodup _ (List.sorted_insertionSort keyLE _)
      (keysNodup_sortGroups _ hn2)⟩

theorem groupsWF_remove (gs : GState) (h : Handler) (g : Int) (hwf : GroupsWF gs) :
    GroupsWF (remove_handler gs h g) := by
  obtain ⟨hn, ho⟩ := hwf
  unfold remove_handler
  by_cases hk : hasKey gs g = true
  · simp only [hk, if_true]
    constructor
    · show ((updateKey gs g _).map Prod.fst).Nodup
      rw [updateKey_map_fst]
      exact hn
    · show (updateKey gs g _).Pairwise _
      unfold updateKey
      refine List.Pairwise.map _ ?_ ho
      intro a b hab ha hb
      have hkey : ∀ x : Int × List Handler,
          ((if x.1 = g then (x.1, set_discard x.2 h) else x) : Int × List Handler).1 = x.1 := by
        intro x
        by_cases hx : x.1 = g <;> simp [hx]
      have hne : ∀ x : Int × List Handler,
          ((if x.1 = g then (x.1, set_discard x.2 h) else x) : Int × List Handler).2 ≠ [] →
            x.2 ≠ [] := by
        intro x hxne hx2
        apply hxne
        by_cases hx : x.1 = g <;> simp [hx, hx2, set_discard]
      rw [hkey a, hkey b]
      exact hab (hne a ha) (hne b hb)
  · rw [Bool.not_eq_true] at hk
    simp only [hk, Bool.false_eq_true, if_false]
    constructor
    · show ((gs ++ [(g, [])]).map Prod.fst).Nodup
      rw [List.map_append, List.nodup_append]
      refine ⟨hn, List.nodup_singleton _, ?_⟩
      intro a ha hb
      simp only [List.map_cons, List.map_nil, List.mem_singleton] at hb
      subst hb
      exact not_mem_keys_of_hasKey_false gs a hk ha
    · show (gs ++ [(g, [])]).Pairwise _
      rw [List.pairwise_append]
      refine ⟨ho, List.pairwise_singleton _ _, ?_⟩
      intro a _ b hb
      rcases List.mem_singleton.mp hb with rfl
      intro _ hb2
      exact absurd rfl hb2

theorem groupsWF_nil : GroupsWF [] :=
  ⟨List.nodup_nil, List.Pairwise.nil⟩

theorem groupsWF_applyOps (ops : List DOp) (gs : GState) (hwf : GroupsWF gs) :
    GroupsWF (applyOps gs ops) := by
  induction ops generalizing gs with
  | nil => exact hwf
  | cons op rest ih =>
    cases op with
    | add h g => exact ih _ (groupsWF_add gs h g hwf)
    | remove h g => exact ih _ (groupsWF_remove gs h g hwf)

theorem handle_update_trace_get (gs : GState) :
    ∀ (i : Nat) (gi : Int) (li : List Handler),
      ((handle_update gs).1).get? i = some (gi, li) →
      ∃ hs, gs.get? i = some (gi, hs) ∧ li = (runGroup hs).2 := by
  induction gs with
  | nil =>
    intro i gi li h
    simp [handle_update] at h
  | cons e rest ih =>
    obtain ⟨g, hs⟩ := e
    intro i gi li h
    cases hr : (runGroup hs).1 with
    | stopped =>
      have hval : handle_update ((g, hs) :: rest) = ([(g, (runGroup hs).2)], true) := by
        simp [handle_update, hr]
      rw [hval] at h
      cases i with
      | zero =>
        simp only [List.get?_cons_zero, Option.some_inj] at h
        obtain ⟨rfl, rfl⟩ := Prod.mk.injEq .. ▸ Prod.ext_iff.mp h
        exact ⟨hs, rfl, rfl⟩
      | succ n =>
        simp at h
    | done =>
      have hval : handle_update ((g, hs) :: rest) =
          ((g, (runGroup hs).2) :: (handle_update rest).1, (handle_update rest).2) := by
        simp [handle_update, hr]
      rw [hval] at h
      cases i with
      | zero =>
        simp only [List.get?_cons_zero, Option.some_inj] at h
        obtain ⟨rfl, rfl⟩ := Prod.mk.injEq .. ▸ Prod.ext_iff.mp h
        exact ⟨hs, rfl, rfl⟩
      | succ n =>
        simp only [List.get?_cons_succ] at h
        obtain ⟨hs2, h1, h2⟩ := ih n gi li h
        exact ⟨hs2, by simpa using h1, h2⟩

/-- C7: after any sequence of add_handler and remove_handler calls starting
from an empty dispatcher, handler invocation respects ascending group ids:
whenever the dispatch trace invokes at least one handler at trace position i
and at least one at a later position j, the group id at i is strictly
smaller than the group id at j. -/
theorem invoked_groups_in_ascending_order (ops : List DOp)
    (i j : Nat) (gi gj : Int) (li lj : List Handler)
    (hij : i < j)
    (hi : ((handle_update (applyOps [] ops)).1).get? i = some (gi, li))
    (hj : ((handle_update (applyOps [] ops)).1).get? j = some (gj, lj))
    (hli : li ≠ []) (hlj : lj ≠ []) :
    gi < gj := by
  have hwf := groupsWF_applyOps ops [] groupsWF_nil
  obtain ⟨hsi, hgi, hli2⟩ := handle_update_trace_get (applyOps [] ops) i gi li hi
  obtain ⟨hsj, hgj, hlj2⟩ := handle_update_trace_get (applyOps [] ops) j gj lj hj
  have hnei : hsi ≠ [] := by
    intro hnil
    apply hli
    rw [hli2, hnil]
    rfl
  have hnej : hsj ≠ [] := by
    intro hnil
    apply hlj
    rw [hlj2, hnil]
    rfl
  have hp : (applyOps [] ops).Pairwise (fun a b => a.2 ≠ [] → b.2 ≠ [] → a.1 < b.1) := hwf.2
  rw [List.pairwise_iff_get] at hp
  rw [List.get?_eq_some] at hgi hgj
  obtain ⟨hib, hgi⟩ := hgi
  obtain ⟨hjb, hgj⟩ := hgj
  have hrel := hp ⟨i, hib⟩ ⟨j, hjb⟩ (Fin.mk_lt_mk.mpr hij)
  rw [hgi, hgj] at hrel
  exact hrel hnei hnej

theorem invoked_groups_in_ascending_order_witness :
    (0 : Nat) < 1 ∧
    ((handle_update (applyOps [] opsW)).1).get? 0 = some (0, [hPostW]) ∧
    ((handle_update (applyOps [] opsW)).1).get? 1 = some (1, [hOkW]) ∧
    ([hPostW] : List Handler) ≠ [] ∧ ([hOkW] : List Handler) ≠ [] ∧
    (0 : Int) < 1 :=
  ⟨by decide, by decide, by decide, by decide, by decide,
   invoked_groups_in_ascending_order opsW 0 1 0 1 [hPostW] [hOkW]
     (by decide) (by decide) (by decide) (by decide) (by decide)⟩

end Pylogram.Dispatcher

namespace Pylogram.Cache

theorem setItem_capacity {K V : Type} [DecidableEq K] (c : Cache K V) (k : K) (v : V) :
    (setItem c k v).capacity = c.capacity := by
  simp only [setItem]
  split <;> rfl

theorem setItem_length_le {K V : Type} [DecidableEq K] (c : Cache K V) (k : K) (v : V)
    (h : c.store.length ≤ c.capacity) :
    (setItem c k v).store.length ≤ c.capacity := by
  simp only [setItem]
  have hf : (c.store.filter (fun p => p.1 ≠ k)).length ≤ c.store.length :=
    List.length_filter_le _ _
  split
  · simp only [List.length_drop, List.length_append, List.length_singleton]
    omega
  · simp only [List.length_append, List.length_singleton]
    rename_i hng
    simp only [not_lt, List.length_append, List.length_singleton] at hng
    omega

theorem runSets_length_le {K V : Type} [DecidableEq K] (c : Nat) (ops : List (K × V)) :
    (runSets c ops).store.length ≤ c := by
  unfold runSets
  suffices h : ∀ st : Cache K V, st.capacity = c → st.store.length ≤ c →
      (ops.foldl (fun st p => setItem st p.1 p.2) st).store.length ≤ c by
    exact h _ rfl (by simp [mkCache])
  induction ops with
  | nil => intro st hcap hlen; simpa using hlen
  | cons p rest ih =>
    intro st hcap hlen
    simp only [List.foldl_cons]
    refine ih _ ?_ ?_
    · rw [setItem_capacity, hcap]
    · have := setItem_length_le st p.1 p.2 (by rw [hcap]; exact hlen)
      rwa [hcap] at this

/-- C2: a Cache with capacity c never holds more than c entries after any
sequence of assignments, and an insertion that would exceed the capacity
evicts exactly c / 2 + 1 entries from the front of the insertion order
(the oldest-inserted entries), leaving c - c / 2 = ceil(c / 2) entries. -/
theorem capacity_bound_and_halving_eviction (K V : Type) [DecidableEq K]
    (c : Nat) (hc : 1 ≤ c) (ops : List (K × V)) :
    (runSets c ops).store.length ≤ c ∧
    (∀ cache : Cache K V, cache.capacity = c → cache.store.length = c →
      ∀ (k : K) (v : V), (∀ p ∈ cache.store, p.1 ≠ k) →
        (setItem cache k v).store = (cache.store ++ [(k, v)]).drop (c / 2 + 1) ∧
        (setItem cache k v).store.length = c - c / 2 ∧
        c - c / 2 = (c + 1) / 2) := by
  refine ⟨runSets_length_le c ops, ?_⟩
  intro cache hcap hlen k v hfresh
  have hfilter : cache.store.filter (fun p => p.1 ≠ k) = cache.store := by
    rw [List.filter_eq_self]
    intro p hp
    simpa using hfresh p hp
  have hstep : (setItem cache k v).store =
      (cache.store ++ [(k, v)]).drop (c / 2 + 1) := by
    simp only [setItem]
    rw [hfilter, hcap]
    have hgt : (cache.store ++ [(k, v)]).length > c := by
      simp [hlen]
    simp only [hgt, if_true]
  refine ⟨hstep, ?_, by omega⟩
  rw [hstep]
  simp only [List.length_drop, List.length_append, List.length_singleton, hlen]
  omega

theorem capacity_bound_and_halving_eviction_witness :
    (1 : Nat) ≤ 2 ∧
    (runSets (K := Nat) (V := Nat) 2 [(1, 10), (2, 20), (3, 30)]).store.length ≤ 2 ∧
    (setItem (Cache.mk 2 [(1, 10), (2, 20)] : Cache Nat Nat) 3 30).store =
      (([(1, 10), (2, 20)] : List (Nat × Nat)) ++ [(3, 30)]).drop (2 / 2 + 1) :=
  ⟨by decide,
   (capacity_bound_and_halving_eviction Nat Nat 2 (by decide) [(1, 10), (2, 20), (3, 30)]).1,
   ((capacity_bound_and_halving_eviction Nat Nat 2 (by decide) []).2
     (Cache.mk 2 [(1, 10), (2, 20)]) rfl rfl 3 30 (by decide)).1⟩

end Pylogram.Cache

namespace Pylogram.Middleware

theorem foldr_eq_chainSpec {C U R : Type} (ms : List (Mw C U R)) (base : C → U → R) :
    ms.foldr (fun m acc => fun cl up => m cl up acc) base = chainSpec ms base := by
  induction ms with
  | nil => rfl
  | cons m rest ih => simp only [List.foldr_cons, chainSpec, ih]

theorem handle_update_with_middlewares_eq_chain {C U R : Type}
    (ms : List (Mw C U R)) (base : C → U → R) (c : C) (u : U) :
    handle_update_with_middlewares ms base c u = chainSpec ms base c u := by
  unfold handle_update_with_middlewares prepare_middlewares
  rw [List.foldl_reverse, foldr_eq_chainSpec]

/-- C6: for middlewares m1..mk registered in that order, the worker wraps
the dispatch with m1 (first registered) outermost and the most recently
added innermost around the plain handle_update dispatch (base), so the
value returned to the worker is the result of m1; in general the built
call chain coincides with the spec-side registration-order composition. -/
theorem middleware_composition_first_outermost {C U R : Type}
    (m1 : Mw C U R) (rest : List (Mw C U R)) (base : C → U → R)
    (baseNone : R) (c : C) (u : U) :
    worker_dispatch (m1 :: rest) base baseNone c (some u) =
      m1 c u (chainSpec rest base) ∧
    (∀ ms : List (Mw C U R),
      handle_update_with_middlewares ms base c u = chainSpec ms base c u) := by
  constructor
  · show (if run_middlewares (m1 :: rest) then
        handle_update_with_middlewares (m1 :: rest) base c u
      else base c u) = m1 c u (chainSpec rest base)
    have hrun : run_middlewares (m1 :: rest) = true := by
      simp [run_middlewares]
    rw [hrun, if_pos rfl, handle_update_with_middlewares_eq_chain]
    rfl
  · intro ms
    exact handle_update_with_middlewares_eq_chain ms base c u

end Pylogram.Middleware

namespace Pylogram.Updates

/-- Concrete channel message in channel 7 (not MessageEmpty). -/
def msgC : RawMsg := ⟨100, false, 7⟩

/-- Concrete new-channel-message update for the counterexample run. -/
def uC : RawUpdate := RawUpdate.newChannelMessage msgC 5 1

/-- A batch user carrying the min flag. -/
def usersC : List Peer := [⟨1, true⟩]

/-- C5 counterexample: with a min peer in the batch and a non-empty
allow-list that does not contain the channel of an incoming
UpdateNewChannelMessage, handle_updates produces no event for the update:
in particular it is NOT enqueued (the claim says only the resolution step
is skipped and the update still enqueued). -/
theorem min_peer_outside_allowlist_dropped_cex :
    handle_updates_batch [get_channel_id 5] usersC [] [uC] = [] ∧
    UEv.enqueue uC ∉ handle_updates_batch [get_channel_id 5] usersC [] [uC] := by
  constructor
  · rfl
  · intro h
    simp [handle_updates_batch, update_storage_peers_min, usersC, uC, process_update,
      msgC, get_channel_id, MAX_CHANNEL_ID] at h

/-- Reduction of the per-update body for a passing new-channel-message
under is_min: one GetChannelDifference call followed by the enqueue. -/
theorem process_update_pass (allow : List Int) (msg : RawMsg) (pts ptsCount : Int)
    (hcond : (!allow.isEmpty && !(allow.contains (get_channel_id msg.channel_id))) = false)
    (h2 : msg.isEmpty = false) :
    process_update allow true (RawUpdate.newChannelMessage msg pts ptsCount) =
      [UEv.gcdCall (get_channel_id msg.channel_id) (pts - ptsCount) pts,
       UEv.enqueue (RawUpdate.newChannelMessage msg pts ptsCount)] := by
  have h0 : process_update allow true (RawUpdate.newChannelMessage msg pts ptsCount) =
      (if (!allow.isEmpty && !(allow.contains (get_channel_id msg.channel_id))) = true then []
       else if (!msg.isEmpty) = true then
         [UEv.gcdCall (get_channel_id msg.channel_id) (pts - ptsCount) pts,
          UEv.enqueue (RawUpdate.newChannelMessage msg pts ptsCount)]
       else [UEv.enqueue (RawUpdate.newChannelMessage msg pts ptsCount)]) := rfl
  rw [h0, hcond, h2]
  simp

/-- Reduction of the per-update body for a new-channel-message dropped by
the allow-list under is_min. -/
theorem process_update_drop (allow : List Int) (msg : RawMsg) (pts ptsCount : Int)
    (hcond : (!allow.isEmpty && !(allow.contains (get_channel_id msg.channel_id))) = true) :
    process_update allow true (RawUpdate.newChannelMessage msg pts ptsCount) = [] := by
  have h0 : process_update allow true (RawUpdate.newChannelMessage msg pts ptsCount) =
      (if (!allow.isEmpty && !(allow.contains (get_channel_id msg.channel_id))) = true then []
       else if (!msg.isEmpty) = true then
         [UEv.gcdCall (get_channel_id msg.channel_id) (pts - ptsCount) pts,
          UEv.enqueue (RawUpdate.newChannelMessage msg pts ptsCount)]
       else [UEv.enqueue (RawUpdate.newChannelMessage msg pts ptsCount)]) := rfl
  rw [h0, hcond]
  simp

/-- C5 (amended): in a batch containing a min peer, a new-channel-message
update with a non-empty message whose channel passes the allow-list (empty
allow-list, or channel in it) triggers exactly one
updates.GetChannelDifference call, immediately before the update is
enqueued; with a non-empty allow-list, an update for a channel outside the
list is dropped entirely: neither resolved nor enqueued. -/
theorem min_peer_resolution_and_allowlist
    (allow : List Int) (users chats : List Peer) (msg : RawMsg)
    (pts ptsCount : Int) (pre post : List RawUpdate)
    (hmin : (update_storage_peers_min users || update_storage_peers_min chats) = true) :
    ((allow = [] ∨ get_channel_id msg.channel_id ∈ allow) → msg.isEmpty = false →
      handle_updates_batch allow users chats
          (pre ++ RawUpdate.newChannelMessage msg pts ptsCount :: post) =
        handle_updates_batch allow users chats pre ++
          ([UEv.gcdCall (get_channel_id msg.channel_id) (pts - ptsCount) pts,
            UEv.enqueue (RawUpdate.newChannelMessage msg pts ptsCount)] ++
           handle_updates_batch allow users chats post)) ∧
    (allow ≠ [] → get_channel_id msg.channel_id ∉ allow →
      handle_updates_batch allow users chats
          (pre ++ RawUpdate.newChannelMessage msg pts ptsCount :: post) =
        handle_updates_batch allow users chats pre ++
          handle_updates_batch allow users chats post) := by
  have hbatch : ∀ ups, handle_updates_batch allow users chats ups =
      ups.flatMap (process_update allow true) := by
    intro ups
    show (let is_min := update_storage_peers_min users || update_storage_peers_min chats;
      ups.flatMap (process_update allow is_min)) = ups.flatMap (process_update allow true)
    rw [hmin]
  constructor
  · intro h1 h2
    rw [hbatch, hbatch, hbatch, List.flatMap_append, List.flatMap_cons]
    have hcond : (!allow.isEmpty &&
        !(allow.contains (get_channel_id msg.channel_id))) = false := by
      rcases h1 with h | h
      · subst h
        rfl
      · have hc : allow.contains (get_channel_id msg.channel_id) = true := by
          simpa using h
        rw [hc]
        simp
    rw [process_update_pass allow msg pts ptsCount hcond h2]
  · intro h1 h2
    rw [hbatch, hbatch, hbatch, List.flatMap_append, List.flatMap_cons]
    have hcond : (!allow.isEmpty &&
        !(allow.contains (get_channel_id msg.channel_id))) = true := by
      have he : allow.isEmpty = false := by
        simpa using h1
      have hc : allow.contains (get_channel_id msg.channel_id) = false := by
        simpa using h2
      rw [he, hc]
      rfl
    rw [process_update_drop allow msg pts ptsCount hcond]
    simp

theorem min_peer_resolution_and_allowlist_witness :
    ((update_storage_peers_min usersC || update_storage_peers_min []) = true) ∧
    (([] : List Int) = [] ∨ get_channel_id msgC.channel_id ∈ ([] : List Int)) ∧
    msgC.isEmpty = false ∧
    handle_updates_batch [] usersC [] ([] ++ RawUpdate.newChannelMessage msgC 5 1 :: []) =
      handle_updates_batch [] usersC [] [] ++
        ([UEv.gcdCall (get_channel_id msgC.channel_id) (5 - 1) 5,
          UEv.enqueue (RawUpdate.newChannelMessage msgC 5 1)] ++
         handle_updates_batch [] usersC [] []) :=
  ⟨by decide, Or.inl rfl, by decide,
   (min_peer_resolution_and_allowlist [] usersC [] msgC 5 1 [] []
     (by decide)).1 (Or.inl rfl) (by decide)⟩

end Pylogram.Updates

namespace Pylogram.GetFile

theorem cdn_loop_head (env : CdnEnv) (r : CdnRedirect) (total fuel current offset n m : Nat) :
    (cdn_loop env r total (fuel + 1) current offset n m).1.head? =
      some (Ev.rpcGetCdnFile Sess.cdn n offset) := by
  cases henv : env.getCdnFile n offset with
  | reuploadNeeded tok =>
    cases hre : env.reupload m <;> simp [cdn_loop, henv, hre]
  | file chunk =>
    simp only [cdn_loop, henv]
    split
    · split
      · simp
      · split
        · simp
        · simp
    · simp

theorem cdn_decrypt_events (env : CdnEnv) (r : CdnRedirect) (total : Nat) :
    ∀ (fuel current offset n m : Nat),
      ∀ ev ∈ (cdn_loop env r total fuel current offset n m).1,
        ∀ o c k iv, ev = Ev.decryptChunk o c k iv →
          k = r.encryption_key ∧ iv = cdn_iv r.encryption_iv o := by
  intro fuel
  induction fuel with
  | zero =>
    intro current offset n m ev hev
    simp [cdn_loop] at hev
  | succ f ih =>
    intro current offset n m ev hev o c k iv heq
    rw [show cdn_loop env r total (f + 1) current offset n m =
        (let ev0 := Ev.rpcGetCdnFile Sess.cdn n offset
         match env.getCdnFile n offset with
         | CdnFileResult.reuploadNeeded tok =>
           match env.reupload m with
           | ReuploadResult.volumeLocNotFound =>
             ([ev0, Ev.rpcReuploadCdnFile Sess.origin tok], LoopExit.finished)
           | ReuploadResult.ok =>
             let rest := cdn_loop env r total f current offset (n + 1) (m + 1)
             (ev0 :: Ev.rpcReuploadCdnFile Sess.origin tok :: rest.1, rest.2)
         | CdnFileResult.file chunk =>
           let iv := cdn_iv r.encryption_iv offset
           let decrypted := env.decrypt chunk r.encryption_key iv
           let evD := Ev.decryptChunk offset chunk r.encryption_key iv
           let evH := Ev.rpcGetCdnFileHashes Sess.origin offset
           if verifyHashes env decrypted 0 (env.getHashes offset) then
             let evY := Ev.yieldChunk decrypted
             if env.progressStop (current + 1) then
               ([ev0, evD, evH, evY], LoopExit.raised PyErr.stopTransmission)
             else if chunk.length < CHUNK_SIZE ∨ current + 1 ≥ total then
               ([ev0, evD, evH, evY], LoopExit.finished)
             else
               let rest := cdn_loop env r total f (current + 1) (offset + CHUNK_SIZE) (n + 1) m
               (ev0 :: evD :: evH :: evY :: rest.1, rest.2)
           else
             ([ev0, evD, evH], LoopExit.raised PyErr.cdnFileHashMismatch)) from rfl] at hev
    cases henv : env.getCdnFile n offset with
    | reuploadNeeded tok =>
      rw [henv] at hev
      cases hre : env.reupload m with
      | volumeLocNotFound =>
        rw [hre] at hev
        simp only [List.mem_cons, List.not_mem_nil, or_false] at hev
        rcases hev with rfl | rfl <;> simp at heq
      | ok =>
        rw [hre] at hev
        simp only [List.mem_cons] at hev
        rcases hev with rfl | rfl | hev
        · simp at heq
        · simp at heq
        · exact ih current offset (n + 1) (m + 1) ev hev o c k iv heq
    | file chunk =>
      rw [henv] at hev
      dsimp only at hev
      split at hev
      · split at hev
        · simp only [List.mem_cons, List.not_mem_nil, or_false] at hev
          rcases hev with rfl | rfl | rfl | rfl
          · simp at heq
          · rw [Ev.decryptChunk.injEq] at heq
            obtain ⟨ho, hc, hk, hiv⟩ := heq
            subst ho
            exact ⟨hk.symm, hiv.symm⟩
          · simp at heq
          · simp at heq
        · split at hev
          · simp only [List.mem_cons, List.not_mem_nil, or_false] at hev
            rcases hev with rfl | rfl | rfl | rfl
            · simp at heq
            · rw [Ev.decryptChunk.injEq] at heq
              obtain ⟨ho, hc, hk, hiv⟩ := heq
              subst ho
              exact ⟨hk.symm, hiv.symm⟩
            · simp at heq
            · simp at heq
          · simp only [List.mem_cons] at hev
            rcases hev with rfl | rfl | rfl | rfl | hev
            · simp at heq
            · rw [Ev.decryptChunk.injEq] at heq
              obtain ⟨ho, hc, hk, hiv⟩ := heq
              subst ho
              exact ⟨hk.symm, hiv.symm⟩
            · simp at heq
            · simp at heq
            · exact ih (current + 1) (offset + CHUNK_SIZE) (n + 1) m ev hev o c k iv heq
      · simp only [List.mem_cons, List.not_mem_nil, or_false] at hev
        rcases hev with rfl | rfl | rfl
        · simp at heq
        · rw [Ev.decryptChunk.injEq] at heq
          obtain ⟨ho, hc, hk, hiv⟩ := heq
          subst ho
          exact ⟨hk.symm, hiv.symm⟩
        · simp at heq

end Pylogram.GetFile

namespace Pylogram.GetFile

/-- C3 counterexample: with a mismatching chunk digest, the download stops
after the hash check (the chunk is not yielded), but get_file completes
silently: the CDNFileHashMismatch raised by the check is logged and
swallowed by the generic except clause of get_file, not surfaced. -/
theorem hash_mismatch_not_surfaced_cex :
    get_file_cdn envHashCex rCex 3 5 0 0 0 0 = ([], GetFileOutcome.completed) ∧
    (get_file_cdn envHashCex rCex 3 5 0 0 0 0).2 ≠
      GetFileOutcome.raised PyErr.cdnFileHashMismatch ∧
    cdn_loop envHashCex rCex 3 5 0 0 0 0 =
      ([Ev.rpcGetCdnFile Sess.cdn 0 0,
        Ev.decryptChunk 0 [1] rCex.encryption_key (cdn_iv rCex.encryption_iv 0),
        Ev.rpcGetCdnFileHashes Sess.origin 0],
       LoopExit.raised PyErr.cdnFileHashMismatch) :=
  ⟨rfl, by decide, rfl⟩

/-- C3 (amended): a hash mismatch is terminal for the download loop: the
mismatching chunk is not yielded and no further request is made; the
CDNFileHashMismatch exception escapes the loop but is caught and logged by
the outer except clause of get_file, so the generator never surfaces it to
the caller (only StopTransmission is re-raised). -/
theorem hash_mismatch_terminal_and_swallowed
    (env : CdnEnv) (r : CdnRedirect) (total fuel current offset n m : Nat) (chunk : Bytes)
    (hfile : env.getCdnFile n offset = CdnFileResult.file chunk)
    (hver : verifyHashes env
        (env.decrypt chunk r.encryption_key (cdn_iv r.encryption_iv offset)) 0
        (env.getHashes offset) = false) :
    cdn_loop env r total (fuel + 1) current offset n m =
      ([Ev.rpcGetCdnFile Sess.cdn n offset,
        Ev.decryptChunk offset chunk r.encryption_key (cdn_iv r.encryption_iv offset),
        Ev.rpcGetCdnFileHashes Sess.origin offset],
       LoopExit.raised PyErr.cdnFileHashMismatch) ∧
    (∀ total2 fuel2 current2 offset2 n2 m2 : Nat,
      (get_file_cdn env r total2 fuel2 current2 offset2 n2 m2).2 ≠
        GetFileOutcome.raised PyErr.cdnFileHashMismatch) := by
  constructor
  · simp only [cdn_loop, hfile, hver]
    simp
  · intro total2 fuel2 current2 offset2 n2 m2
    show (match (cdn_loop env r total2 fuel2 current2 offset2 n2 m2).2 with
        | LoopExit.raised PyErr.stopTransmission => GetFileOutcome.raised PyErr.stopTransmission
        | _ => GetFileOutcome.completed) ≠
      GetFileOutcome.raised PyErr.cdnFileHashMismatch
    cases hres : (cdn_loop env r total2 fuel2 current2 offset2 n2 m2).2 with
    | finished => decide
    | raised e => cases e <;> decide
    | fuelOut => decide

theorem hash_mismatch_terminal_and_swallowed_witness :
    envHashCex.getCdnFile 0 0 = CdnFileResult.file [1] ∧
    verifyHashes envHashCex
        (envHashCex.decrypt [1] rCex.encryption_key (cdn_iv rCex.encryption_iv 0)) 0
        (envHashCex.getHashes 0) = false ∧
    cdn_loop envHashCex rCex 7 (4 + 1) 0 0 0 0 =
      ([Ev.rpcGetCdnFile Sess.cdn 0 0,
        Ev.decryptChunk 0 [1] rCex.encryption_key (cdn_iv rCex.encryption_iv 0),
        Ev.rpcGetCdnFileHashes Sess.origin 0],
       LoopExit.raised PyErr.cdnFileHashMismatch) :=
  ⟨rfl, by decide,
   (hash_mismatch_terminal_and_swallowed envHashCex rCex 7 4 0 0 0 0 [1]
     rfl (by decide)).1⟩

/-- C8 counterexample: a reuploadNeeded response answered by a
VolumeLocNotFound error on the reupload breaks out of the loop: exactly one
getCdnFile call and one reuploadCdnFile call appear, with no retried
getCdnFile afterwards (the claim asserts an unconditional retry). -/
theorem reupload_volume_loc_not_retried_cex :
    cdn_loop envReupCex rCex 3 5 0 0 0 0 =
      ([Ev.rpcGetCdnFile Sess.cdn 0 0, Ev.rpcReuploadCdnFile Sess.origin [9]],
       LoopExit.finished) ∧
    ((cdn_loop envReupCex rCex 3 5 0 0 0 0).1.countP (fun e =>
      match e with
      | Ev.rpcGetCdnFile _ _ _ => true
      | _ => false)) = 1 ∧
    ((cdn_loop envReupCex rCex 3 5 0 0 0 0).1.countP (fun e =>
      match e with
      | Ev.rpcReuploadCdnFile _ _ => true
      | _ => false)) = 1 :=
  ⟨rfl, rfl, rfl⟩

/-- C8 (amended): a cdnFileReuploadNeeded response produces exactly one
upload.reuploadCdnFile call on the origin session with the returned request
token and yields no chunk; if the reupload returns normally the next call
is a getCdnFile retry at the unchanged offset, while a VolumeLocNotFound
error from the reupload ends the loop without a retry. -/
theorem reupload_needed_origin_once_and_retry
    (env : CdnEnv) (r : CdnRedirect) (total fuel current offset n m : Nat) (tok : Bytes)
    (hresp : env.getCdnFile n offset = CdnFileResult.reuploadNeeded tok) :
    (env.reupload m = ReuploadResult.ok →
      cdn_loop env r total (fuel + 1) current offset n m =
        (Ev.rpcGetCdnFile Sess.cdn n offset ::
          Ev.rpcReuploadCdnFile Sess.origin tok ::
          (cdn_loop env r total fuel current offset (n + 1) (m + 1)).1,
         (cdn_loop env r total fuel current offset (n + 1) (m + 1)).2) ∧
      (∀ fuel2 : Nat,
        (cdn_loop env r total (fuel2 + 1) current offset (n + 1) (m + 1)).1.head? =
          some (Ev.rpcGetCdnFile Sess.cdn (n + 1) offset))) ∧
    (env.reupload m = ReuploadResult.volumeLocNotFound →
      cdn_loop env r total (fuel + 1) current offset n m =
        ([Ev.rpcGetCdnFile Sess.cdn n offset, Ev.rpcReuploadCdnFile Sess.origin tok],
         LoopExit.finished)) := by
  constructor
  · intro hok
    refine ⟨?_, fun fuel2 => cdn_loop_head env r total fuel2 current offset (n + 1) (m + 1)⟩
    simp only [cdn_loop, hresp, hok]
  · intro hv
    simp only [cdn_loop, hresp, hv]

theorem reupload_needed_origin_once_and_retry_witness :
    envReupOk.getCdnFile 0 0 = CdnFileResult.reuploadNeeded [9] ∧
    envReupOk.reupload 0 = ReuploadResult.ok ∧
    cdn_loop envReupOk rCex 3 (3 + 1) 0 0 0 0 =
      (Ev.rpcGetCdnFile Sess.cdn 0 0 ::
        Ev.rpcReuploadCdnFile Sess.origin [9] ::
        (cdn_loop envReupOk rCex 3 3 0 0 1 1).1,
       (cdn_loop envReupOk rCex 3 3 0 0 1 1).2) ∧
    (cdn_loop envReupOk rCex 3 (2 + 1) 0 0 1 1).1.head? =
      some (Ev.rpcGetCdnFile Sess.cdn 1 0) :=
  ⟨rfl, rfl,
   ((reupload_needed_origin_once_and_retry envReupOk rCex 3 3 0 0 0 0 [9] rfl).1 rfl).1,
   ((reupload_needed_origin_once_and_retry envReupOk rCex 3 3 0 0 0 0 [9] rfl).1 rfl).2 2⟩

/-- C9: every CDN chunk fetched at offset o is decrypted with the
server-supplied key and an IV formed from the first 12 bytes of the
server-supplied 16-byte IV followed by the 4 bytes produced for o / 16;
those 4 bytes are the big-endian encoding of o / 16 whenever it fits 32
bits (elsewhere Python to_bytes raises). -/
theorem cdn_chunk_decryption_key_and_iv
    (r : CdnRedirect) (hiv : r.encryption_iv.length = 16)
    (env : CdnEnv) (total fuel current offset n m : Nat) :
    (∀ ev ∈ (cdn_loop env r total fuel current offset n m).1,
      ∀ o c k iv, ev = Ev.decryptChunk o c k iv →
        k = r.encryption_key ∧
        iv = r.encryption_iv.take 12 ++ toBytes4BE (o / 16)) ∧
    (∀ v : Nat, v < 4294967296 →
      (toBytes4BE v).length = 4 ∧ fromBytesBE (toBytes4BE v) = v ∧
      ∀ b ∈ toBytes4BE v, b < 256) := by
  constructor
  · intro ev hev o c k iv heq
    obtain ⟨hk, hiv2⟩ :=
      cdn_decrypt_events env r total fuel current offset n m ev hev o c k iv heq
    refine ⟨hk, ?_⟩
    rw [hiv2]
    unfold cdn_iv
    rw [hiv]
  · intro v hv
    refine ⟨rfl, ?_, ?_⟩
    · simp only [fromBytesBE, toBytes4BE, List.foldl]
      omega
    · intro b hb
      simp only [toBytes4BE, List.mem_cons, List.not_mem_nil, or_false] at hb
      rcases hb with rfl | rfl | rfl | rfl <;> omega

theorem cdn_chunk_decryption_key_and_iv_witness :
    rCex.encryption_iv.length = 16 ∧
    ((∀ ev ∈ (cdn_loop envHashCex rCex 3 5 0 0 0 0).1,
        ∀ o c k iv, ev = Ev.decryptChunk o c k iv →
          k = rCex.encryption_key ∧
          iv = rCex.encryption_iv.take 12 ++ toBytes4BE (o / 16)) ∧
     (∀ v : Nat, v < 4294967296 →
        (toBytes4BE v).length = 4 ∧ fromBytesBE (toBytes4BE v) = v ∧
        ∀ b ∈ toBytes4BE v, b < 256)) :=
  ⟨rfl, cdn_chunk_decryption_key_and_iv rCex rfl envHashCex 3 5 0 0 0 0⟩

end Pylogram.GetFile
